import Mathlib

/-!
Verification of the DeepCTR-PyTorch model assemblers (DCN, xDeepFM, FiBiNET).

The development shallowly embeds the three assembler modules
(`deepctr_torch/models/dcn.py`, `xdeepfm.py`, `fibinet.py`).  Configuration
logic (hidden-unit lists, layer counts, branch selection) is translated
directly from the Python sources; exact rational / real arithmetic stands in
for tensor arithmetic, one list per batch row.  Layer modules that the
assemblers import but whose implementation is not part of the sources
(CrossNet, BilinearInteraction, DNN, the prediction output layer) are
modelled from the specification and marked as such in their doc comments.
-/

namespace DeepCTR

/-- Python exceptions that the assembler code can raise: the explicit
`raise NotImplementedError`, the `IndexError` of `xs[-1]` on an empty list,
and the `UnboundLocalError` of reading a local that no branch assigned. -/
inductive PyErr
  | notImplementedError
  | indexError
  | unboundLocalError
deriving DecidableEq, Repr

instance {ε α : Type} [DecidableEq ε] [DecidableEq α] : DecidableEq (Except ε α) :=
  fun x y =>
    match x, y with
    | .ok a, .ok b =>
      if h : a = b then isTrue (by rw [h])
      else isFalse (fun hc => by cases hc; exact h rfl)
    | .error e, .error f =>
      if h : e = f then isTrue (by rw [h])
      else isFalse (fun hc => by cases hc; exact h rfl)
    | .ok _, .error _ => isFalse (fun hc => Except.noConfusion hc)
    | .error _, .ok _ => isFalse (fun hc => Except.noConfusion hc)

/-- The prediction task selecting the output transform of a model. -/
inductive Task
  | binary
  | regression
deriving DecidableEq, Repr

/-- One batch row of a 2-D tensor. -/
abbrev Vec (α : Type) := List α

/-- A weight matrix stored as its list of rows. -/
abbrev Mat (α : Type) := List (Vec α)

section TensorOps

variable {α : Type} [LinearOrderedField α]

/-- Dot product of two vectors (a scalar per batch row). -/
def dot (w x : Vec α) : α := (List.zipWith (fun s t => s * t) w x).sum

/-- A bias-free `nn.Linear` applied to one row: each output unit is the dot
product of its weight row with the input. -/
def matVec (m : Mat α) (x : Vec α) : Vec α := m.map (fun r => dot r x)

/-- Element-wise sum of two vectors. -/
def vadd (a b : Vec α) : Vec α := List.zipWith (fun s t => s + t) a b

/-- Element-wise (Hadamard) product of two vectors. -/
def hadamard (a b : Vec α) : Vec α := List.zipWith (fun s t => s * t) a b

/-- Scaling of a vector by a scalar. -/
def smul (c : α) (x : Vec α) : Vec α := x.map (fun t => c * t)

/-- Rectified linear unit. -/
def relu (t : α) : α := max t 0

/-- Modelled from the spec: the multi-layer perceptron tower (`DNN`), an
external collaborator whose implementation is not under the assembler
sources — a fold of affine layers each followed by the ReLU activation. -/
def dnnForward (layers : List (Mat α × Vec α)) (x : Vec α) : Vec α :=
  layers.foldl (fun h l => (vadd (matVec l.1 h) l.2).map relu) x

/-- Modelled from the spec: one CrossNet layer
`x_l = x0 * (w_l . x_prev) + b_l + x_prev` (the CrossNet module imported by
`dcn.py` is not under the assembler sources). -/
def crossLayer (x0 w b xprev : Vec α) : Vec α :=
  vadd (vadd (smul (dot w xprev) x0) b) xprev

/-- Modelled from the spec: CrossNet with one kernel/bias pair per layer,
iterating `crossLayer` starting from the flattened input `x0`. -/
def crossNet (kernels : List (Vec α × Vec α)) (x0 : Vec α) : Vec α :=
  kernels.foldl (fun xl p => crossLayer x0 p.1 p.2 xl) x0

end TensorOps

/-- xDeepFM.__init__ line 47, `nn.Linear(dnn_hidden_units[-1], 1)`:
indexing the last hidden unit, an `IndexError` on an empty list. -/
def xDeepFM.dnn_linear_in (dnn_hidden_units : List Nat) : Except PyErr Nat :=
  match dnn_hidden_units.getLast? with
  | some u => .ok u
  | none => .error .indexError

/-- xDeepFM.__init__ lines 51-55: the CIN output width `featuremap_num`,
`sum(cin_layer_size[:-1]) // 2 + cin_layer_size[-1]` when `cin_split_half`
is set, `sum(cin_layer_size)` otherwise.  This is also the in-feature count
of `cin_linear` (line 58). -/
def xDeepFM.featuremap_num (cin_layer_size : List Nat) (cin_split_half : Bool) :
    Except PyErr Nat :=
  if cin_split_half then
    match cin_layer_size.getLast? with
    | some last => .ok (cin_layer_size.dropLast.sum / 2 + last)
    | none => .error .indexError
  else .ok cin_layer_size.sum

/-- The four branches of xDeepFM.forward (lines 83-92). -/
inductive xDeepFM.Branch
  | onlyLinear
  | linearCIN
  | linearDeep
  | linearCINDeep
deriving DecidableEq, Repr

/-- xDeepFM.forward lines 83-92: branch selection on the configured
hidden-unit and CIN layer-size lists. -/
def xDeepFM.forwardBranch (hid csz : List Nat) : Except PyErr xDeepFM.Branch :=
  if hid.length = 0 ∧ csz.length = 0 then .ok .onlyLinear
  else if hid.length = 0 ∧ 0 < csz.length then .ok .linearCIN
  else if 0 < hid.length ∧ csz.length = 0 then .ok .linearDeep
  else if 0 < hid.length ∧ 0 < csz.length then .ok .linearCINDeep
  else .error .notImplementedError

/-- xDeepFM construction (the fallible parts of __init__, in source order)
followed by the forward branch selection. -/
def xDeepFM.run (hid csz : List Nat) (split : Bool) : Except PyErr xDeepFM.Branch :=
  match xDeepFM.dnn_linear_in hid with
  | .error e => .error e
  | .ok _ =>
    match xDeepFM.featuremap_num csz split with
    | .error e => .error e
    | .ok _ => xDeepFM.forwardBranch hid csz

/-- DCN.__init__ lines 56-63: the if/elif chain computing
`dnn_linear_in_feature`; when no branch matches, line 63 reads the
unassigned local and Python raises `UnboundLocalError`. -/
def DCN.dnn_linear_in_feature (inputDim : Nat) (dnn_hidden_units : List Nat)
    (cross_num : Nat) : Except PyErr Nat :=
  if 0 < dnn_hidden_units.length ∧ 0 < cross_num then
    match dnn_hidden_units.getLast? with
    | some u => .ok (inputDim + u)
    | none => .error .indexError
  else if 0 < dnn_hidden_units.length then
    match dnn_hidden_units.getLast? with
    | some u => .ok u
    | none => .error .indexError
  else if 0 < cross_num then .ok inputDim
  else .error .unboundLocalError

/-- The configuration state a successful DCN.__init__ leaves behind.
`crossnet_layer_num = some n` records that a CrossNet module with
`layer_num = n` was constructed. -/
structure DCNModel where
  dnn_hidden_units : List Nat
  cross_num : Nat
  dnn_linear_in : Nat
  crossnet_layer_num : Option Nat
deriving DecidableEq, Repr

/-- DCN.__init__: the `dnn_linear_in_feature` chain (lines 56-63) followed by
the unconditional CrossNet construction of line 65. -/
def DCN.construct (inputDim : Nat) (hid : List Nat) (cross_num : Nat) :
    Except PyErr DCNModel :=
  match DCN.dnn_linear_in_feature inputDim hid cross_num with
  | .error e => .error e
  | .ok n => .ok ⟨hid, cross_num, n, some cross_num⟩

/-- The three branches of DCN.forward (lines 80-92). -/
inductive DCN.Branch
  | deepCross
  | onlyDeep
  | onlyCross
deriving DecidableEq, Repr

/-- DCN.forward lines 80-92: branch selection; the final `else` raises
`NotImplementedError`. -/
def DCN.forwardBranch (hid : List Nat) (cross_num : Nat) : Except PyErr DCN.Branch :=
  if 0 < hid.length ∧ 0 < cross_num then .ok .deepCross
  else if 0 < hid.length then .ok .onlyDeep
  else if 0 < cross_num then .ok .onlyCross
  else .error .notImplementedError

/-- DCN construction followed by the forward branch selection. -/
def DCN.run (inputDim : Nat) (hid : List Nat) (cross_num : Nat) :
    Except PyErr DCN.Branch :=
  match DCN.construct inputDim hid cross_num with
  | .error e => .error e
  | .ok _ => DCN.forwardBranch hid cross_num

/-- FiBiNET.__init__ line 58, `nn.Linear(dnn_hidden_units[-1], 1)`:
indexing the last hidden unit, an `IndexError` on an empty list. -/
def FiBiNET.dnn_linear_in (dnn_hidden_units : List Nat) : Except PyErr Nat :=
  match dnn_hidden_units.getLast? with
  | some u => .ok u
  | none => .error .indexError

/-- The three branches of FiBiNET.forward (lines 86-93). -/
inductive FiBiNET.Branch
  | linearDnn
  | dnnOnly
  | linearOnly
deriving DecidableEq, Repr

/-- FiBiNET.forward lines 86-93: branch selection on the lengths of the two
feature-column lists; the final `else` raises `NotImplementedError`. -/
def FiBiNET.forwardBranch (nLinear nDnn : Nat) : Except PyErr FiBiNET.Branch :=
  if 0 < nLinear ∧ 0 < nDnn then .ok .linearDnn
  else if nLinear = 0 then .ok .dnnOnly
  else if nDnn = 0 then .ok .linearOnly
  else .error .notImplementedError

/-- FiBiNET construction (the fallible part of __init__) followed by the
forward branch selection. -/
def FiBiNET.run (hid : List Nat) (nLinear nDnn : Nat) : Except PyErr FiBiNET.Branch :=
  match FiBiNET.dnn_linear_in hid with
  | .error e => .error e
  | .ok _ => FiBiNET.forwardBranch nLinear nDnn

/-- C1 counterexample: with zero interaction layers and zero DNN hidden
units, none of the three assemblers raises `NotImplementedError` — DCN
fails at construction with `UnboundLocalError`, xDeepFM and FiBiNET with
`IndexError`. -/
theorem c1_counterexample :
    DCN.run 8 [] 0 = .error .unboundLocalError ∧
    xDeepFM.run [] [] true = .error .indexError ∧
    FiBiNET.run [] 2 2 = .error .indexError ∧
    PyErr.unboundLocalError ≠ PyErr.notImplementedError ∧
    PyErr.indexError ≠ PyErr.notImplementedError := by
  decide

/-- C1 (amended): with zero interaction layers and zero DNN hidden units no
assembler raises the unimplemented-configuration error: DCN.__init__ fails
with `UnboundLocalError` (its dnn_linear_in_feature chain matches no branch),
xDeepFM.__init__ and FiBiNET.__init__ fail with `IndexError` (indexing the
last element of the empty hidden-unit list); only the DCN forward branch chain,
taken in isolation, would raise `NotImplementedError`, while the xDeepFM
forward would fall through to its linear-only branch without error. -/
theorem c1_theorem :
    ∀ (inputDim : Nat) (split : Bool) (nLinear nDnn : Nat),
      DCN.run inputDim [] 0 = .error .unboundLocalError ∧
      DCN.forwardBranch [] 0 = .error .notImplementedError ∧
      xDeepFM.run [] [] split = .error .indexError ∧
      xDeepFM.forwardBranch [] [] = .ok .onlyLinear ∧
      FiBiNET.run [] nLinear nDnn = .error .indexError := by
  intro inputDim split nLinear nDnn
  exact ⟨rfl, rfl, rfl, rfl, rfl⟩

/-- C2: with `cin_split_half` enabled and at least two CIN layers, the CIN
final output width (the in-feature count of `cin_linear`) is
`sum(H_1..H_{K-1}) / 2 + H_K`; with it disabled, it is `sum(H_1..H_K)`. -/
theorem c2_theorem :
    (∀ (front : List Nat) (hK : Nat), 1 ≤ front.length →
      xDeepFM.featuremap_num (front ++ [hK]) true = .ok (front.sum / 2 + hK)) ∧
    (∀ csz : List Nat, xDeepFM.featuremap_num csz false = .ok csz.sum) := by
  constructor
  · intro front hK _
    simp [xDeepFM.featuremap_num, List.getLast?_concat, List.dropLast_concat]
  · intro csz
    rfl

/-- C2 witness at the literal schedule (4, 4). -/
theorem c2_witness :
    1 ≤ ([4] : List Nat).length ∧
    xDeepFM.featuremap_num ([4] ++ [4]) true = .ok (([4] : List Nat).sum / 2 + 4) ∧
    xDeepFM.featuremap_num [4, 4] false = .ok ([4, 4] : List Nat).sum :=
  ⟨by decide, c2_theorem.1 [4] 4 (by decide), c2_theorem.2 [4, 4]⟩

/-- The learnable tensors DCN.forward reads: the DNN tower layers, the final
bias-free linear layer, and the CrossNet kernel/bias pairs. -/
structure DCNParams (α : Type) where
  dnnLayers : List (Mat α × Vec α)
  dnnLinearW : Vec α
  crossKernels : List (Vec α × Vec α)
deriving DecidableEq

section Forward

variable {α : Type} [LinearOrderedField α]

/-- DCN.forward lines 80-92 on one batch row `x` (the flattened dnn_input),
returning the final logit: Deep&Cross concatenates `(cross_out, deep_out)`
before the final linear layer; the single-component branches apply it to
the single output; the final `else` raises `NotImplementedError`. -/
def DCN.forwardLogit (hid : List Nat) (cross_num : Nat) (p : DCNParams α)
    (x : Vec α) : Except PyErr α :=
  if 0 < hid.length ∧ 0 < cross_num then
    .ok (dot p.dnnLinearW (crossNet p.crossKernels x ++ dnnForward p.dnnLayers x))
  else if 0 < hid.length then
    .ok (dot p.dnnLinearW (dnnForward p.dnnLayers x))
  else if 0 < cross_num then
    .ok (dot p.dnnLinearW (crossNet p.crossKernels x))
  else .error .notImplementedError

/-- xDeepFM.forward lines 83-92: the final logit as a function of the three
branch logits, mirroring the if/elif chain on the configured lists. -/
def xDeepFM.finalLogit (hid csz : List Nat) (linear_logit dnn_logit cin_logit : α) :
    Except PyErr α :=
  if hid.length = 0 ∧ csz.length = 0 then .ok linear_logit
  else if hid.length = 0 ∧ 0 < csz.length then .ok (linear_logit + cin_logit)
  else if 0 < hid.length ∧ csz.length = 0 then .ok (linear_logit + dnn_logit)
  else if 0 < hid.length ∧ 0 < csz.length then .ok (linear_logit + dnn_logit + cin_logit)
  else .error .notImplementedError

/-- The learnable tensors xDeepFM.forward reads through `self.dnn`,
`self.dnn_linear` and `self.cin_linear`. -/
structure XDeepFMParams (α : Type) where
  dnnLayers : List (Mat α × Vec α)
  dnnLinearW : Vec α
  cinLinearW : Vec α
deriving DecidableEq

/-- xDeepFM.forward lines 68-92 on one batch row `X`: the linear model and
the CIN module are external collaborators passed as pure functions `linM`
and `cinF`; the DNN tower and the two projection heads are applied per the
source, then the branch chain combines the three logits. -/
def xDeepFM.forwardLogit (hid csz : List Nat) (linM : Vec α → α)
    (cinF : Vec α → Vec α) (p : XDeepFMParams α) (X : Vec α) : Except PyErr α :=
  xDeepFM.finalLogit hid csz (linM X)
    (dot p.dnnLinearW (dnnForward p.dnnLayers X))
    (dot p.cinLinearW (cinF X))

/-- FiBiNET.forward lines 86-93: the final logit as a function of the linear
and DNN logits, branching on the two feature-column list lengths. -/
def FiBiNET.finalLogit (nLinear nDnn : Nat) (linear_logit dnn_logit : α) :
    Except PyErr α :=
  if 0 < nLinear ∧ 0 < nDnn then .ok (linear_logit + dnn_logit)
  else if nLinear = 0 then .ok dnn_logit
  else if nDnn = 0 then .ok linear_logit
  else .error .notImplementedError

/-- The learnable tensors FiBiNET.forward reads through `self.dnn` and
`self.dnn_linear`. -/
structure FiBiNETParams (α : Type) where
  dnnLayers : List (Mat α × Vec α)
  dnnLinearW : Vec α
deriving DecidableEq

/-- FiBiNET.forward lines 71-93 on one batch row: the SENET layer, the
bilinear layer and the linear model are external collaborators passed as
pure functions; the DNN input is the concatenation of the two bilinear
outputs with the dense values, per lines 81-82. -/
def FiBiNET.forwardLogit (nLinear nDnn : Nat) (se bil : Vec α → Vec α)
    (linM : Vec α → α) (p : FiBiNETParams α) (emb X dense : Vec α) :
    Except PyErr α :=
  FiBiNET.finalLogit nLinear nDnn (linM X)
    (dot p.dnnLinearW (dnnForward p.dnnLayers ((bil (se emb) ++ bil emb) ++ dense)))

end Forward

/-- C3 counterexample: DCN constructed with `cross_num = 0` (and a nonempty
hidden-unit list, as in the test suite of the repository) does instantiate the
CrossNet module — line 65 of dcn.py runs unconditionally. -/
theorem c3_counterexample :
    DCN.construct 8 [32] 0 = .ok ⟨[32], 0, 32, some 0⟩ ∧
    some 0 ≠ (none : Option Nat) := by
  decide

/-- C3 (amended): DCN with `cross_num = 0` instantiates CrossNet
unconditionally (with `layer_num = 0`), but its forward pass takes the
Only-Deep branch (given a nonempty hidden-unit list) and performs no cross
computation: the output is independent of the CrossNet kernels. -/
theorem c3_theorem :
    ∀ (inputDim : Nat) (hid : List Nat), 0 < hid.length →
      (∃ m : DCNModel, DCN.construct inputDim hid 0 = .ok m ∧
        m.crossnet_layer_num = some 0) ∧
      DCN.forwardBranch hid 0 = .ok .onlyDeep ∧
      ∀ (p q : DCNParams ℚ) (x : Vec ℚ),
        p.dnnLayers = q.dnnLayers → p.dnnLinearW = q.dnnLinearW →
        DCN.forwardLogit hid 0 p x = DCN.forwardLogit hid 0 q x := by
  intro inputDim hid hpos
  obtain ⟨u, hu⟩ : ∃ u, hid.getLast? = some u := by
    cases h : hid.getLast? with
    | none =>
      rw [List.getLast?_eq_none_iff] at h
      simp [h] at hpos
    | some u => exact ⟨u, rfl⟩
  refine ⟨⟨⟨hid, 0, u, some 0⟩, ?_, rfl⟩, ?_, ?_⟩
  · simp [DCN.construct, DCN.dnn_linear_in_feature, hpos, hu]
  · simp [DCN.forwardBranch, hpos]
  · intro p q x h1 h2
    simp [DCN.forwardLogit, hpos, h1, h2]

/-- C3 witness: a concrete nonempty hidden-unit configuration and two
parameter sets differing only in the CrossNet kernels. -/
theorem c3_witness :
    0 < ([32] : List Nat).length ∧
    DCN.forwardLogit [32] 0
        (⟨[([[2], [3]], [1, 1])], [1, 4], [([2], [3])]⟩ : DCNParams ℚ) [5] =
      DCN.forwardLogit [32] 0
        (⟨[([[2], [3]], [1, 1])], [1, 4], []⟩ : DCNParams ℚ) [5] :=
  ⟨by decide,
    (c3_theorem 8 [32] (by decide)).2.2
      (⟨[([[2], [3]], [1, 1])], [1, 4], [([2], [3])]⟩ : DCNParams ℚ)
      (⟨[([[2], [3]], [1, 1])], [1, 4], []⟩ : DCNParams ℚ) [5] rfl rfl⟩

/-- C10: constructing xDeepFM or FiBiNET with an empty `dnn_hidden_units`,
or xDeepFM with `cin_split_half = True` and an empty `cin_layer_size`,
fails at construction with an `IndexError`; consequently any successfully
constructed xDeepFM never takes the forward branches guarded by
`len(dnn_hidden_units) == 0`, and with `cin_split_half = True` it always
takes the linear + CIN + Deep branch. -/
theorem c10_theorem :
    xDeepFM.dnn_linear_in [] = .error .indexError ∧
    FiBiNET.dnn_linear_in [] = .error .indexError ∧
    xDeepFM.featuremap_num [] true = .error .indexError ∧
    ∀ (hid csz : List Nat) (split : Bool) (b : xDeepFM.Branch),
      xDeepFM.run hid csz split = .ok b →
        (b ≠ .onlyLinear ∧ b ≠ .linearCIN) ∧ (split = true → b = .linearCINDeep) := by
  refine ⟨rfl, rfl, rfl, ?_⟩
  intro hid csz split b hrun
  match hid with
  | [] => simp [xDeepFM.run, xDeepFM.dnn_linear_in] at hrun
  | h :: t =>
    obtain ⟨u, hu⟩ : ∃ u, (h :: t).getLast? = some u := by
      cases hgl : (h :: t).getLast? with
      | none => rw [List.getLast?_eq_none_iff] at hgl; cases hgl
      | some u => exact ⟨u, rfl⟩
    match csz, split with
    | [], true =>
      simp [xDeepFM.run, xDeepFM.dnn_linear_in, hu, xDeepFM.featuremap_num] at hrun
    | [], false =>
      have hb : xDeepFM.run (h :: t) [] false = .ok .linearDeep := by
        simp [xDeepFM.run, xDeepFM.dnn_linear_in, hu, xDeepFM.featuremap_num,
          xDeepFM.forwardBranch]
      rw [hb] at hrun
      injection hrun with hb2
      subst hb2
      exact ⟨⟨by decide, by decide⟩, by intro h'; cases h'⟩
    | c :: cs, sp =>
      obtain ⟨v, hv⟩ : ∃ v, xDeepFM.featuremap_num (c :: cs) sp = .ok v := by
        cases sp with
        | false => exact ⟨(c :: cs).sum, rfl⟩
        | true =>
          obtain ⟨w, hw⟩ : ∃ w, (c :: cs).getLast? = some w := by
            cases hgl : (c :: cs).getLast? with
            | none => rw [List.getLast?_eq_none_iff] at hgl; cases hgl
            | some w => exact ⟨w, rfl⟩
          exact ⟨(c :: cs).dropLast.sum / 2 + w, by simp [xDeepFM.featuremap_num, hw]⟩
      have hb : xDeepFM.run (h :: t) (c :: cs) sp = .ok .linearCINDeep := by
        simp [xDeepFM.run, xDeepFM.dnn_linear_in, hu, hv, xDeepFM.forwardBranch]
      rw [hb] at hrun
      injection hrun with hb2
      subst hb2
      exact ⟨⟨by decide, by decide⟩, fun _ => rfl⟩

/-- C10 witness: a well-formed default-style configuration constructs and
takes the linear + CIN + Deep branch. -/
theorem c10_witness :
    xDeepFM.run [8] [4] true = .ok .linearCINDeep ∧
    ((xDeepFM.Branch.linearCINDeep ≠ .onlyLinear ∧
      xDeepFM.Branch.linearCINDeep ≠ .linearCIN) ∧
     (true = true → xDeepFM.Branch.linearCINDeep = .linearCINDeep)) :=
  ⟨by decide, c10_theorem.2.2.2 [8] [4] true .linearCINDeep (by decide)⟩

/-- Modelled from the spec: the logistic sigmoid of the binary-task output
transform (the prediction layer lives in the base model, which is not under
the assembler sources). -/
noncomputable def sigmoid (x : ℝ) : ℝ := 1 / (1 + Real.exp (-x))

/-- Modelled from the spec: the task-dependent output transform `self.out`
owned by the external framework — sigmoid for the binary task, identity for
regression. -/
noncomputable def PredictionLayer.out (t : Task) (x : ℝ) : ℝ :=
  match t with
  | .binary => sigmoid x
  | .regression => x

/-- Row-by-row application of a fallible per-row computation over a batch. -/
def exMapM {β γ : Type} (f : β → Except PyErr γ) : List β → Except PyErr (List γ)
  | [] => .ok []
  | x :: xs =>
    match f x with
    | .error e => .error e
    | .ok y =>
      match exMapM f xs with
      | .error e => .error e
      | .ok ys => .ok (y :: ys)

/-- A successful batched result preserves the batch size and every row value
lies in the unit interval. -/
def OkBounded (r : Except PyErr (List ℝ)) (n : Nat) : Prop :=
  match r with
  | .error _ => True
  | .ok ys => ys.length = n ∧ ∀ y ∈ ys, 0 ≤ y ∧ y ≤ 1

/-- A successful stateful result returns the parameter record unchanged. -/
def ParamsUnchanged {σ β : Type} (r : Except PyErr (β × σ)) (s : σ) : Prop :=
  match r with
  | .error _ => True
  | .ok v => v.2 = s

section StatefulForward

variable {α : Type} [LinearOrderedField α]

/-- DCN.forward threading the parameter record of the module explicitly: the
source assigns no attribute of `self`, so the record is returned as is. -/
def DCN.forwardSt (hid : List Nat) (cross_num : Nat) (p : DCNParams α)
    (x : Vec α) : Except PyErr (α × DCNParams α) :=
  match DCN.forwardLogit hid cross_num p x with
  | .error e => .error e
  | .ok y => .ok (y, p)

/-- xDeepFM.forward threading the parameter record of the module explicitly. -/
def xDeepFM.forwardSt (hid csz : List Nat) (linM : Vec α → α)
    (cinF : Vec α → Vec α) (p : XDeepFMParams α) (X : Vec α) :
    Except PyErr (α × XDeepFMParams α) :=
  match xDeepFM.forwardLogit hid csz linM cinF p X with
  | .error e => .error e
  | .ok y => .ok (y, p)

/-- FiBiNET.forward threading the parameter record of the module explicitly. -/
def FiBiNET.forwardSt (nLinear nDnn : Nat) (se bil : Vec α → Vec α)
    (linM : Vec α → α) (p : FiBiNETParams α) (emb X dense : Vec α) :
    Except PyErr (α × FiBiNETParams α) :=
  match FiBiNET.forwardLogit nLinear nDnn se bil linM p emb X dense with
  | .error e => .error e
  | .ok y => .ok (y, p)

end StatefulForward

/-- DCN.forward over a batch: per row, the final logit passed through the
task output transform (dcn.py lines 94-95). -/
noncomputable def DCN.yPredBatch (t : Task) (hid : List Nat) (cross_num : Nat)
    (p : DCNParams ℝ) (rows : List (Vec ℝ)) : Except PyErr (List ℝ) :=
  exMapM
    (fun x => (DCN.forwardLogit hid cross_num p x).map (PredictionLayer.out t))
    rows

/-- xDeepFM.forward over a batch (xdeepfm.py lines 94-96). -/
noncomputable def xDeepFM.yPredBatch (t : Task) (hid csz : List Nat)
    (linM : Vec ℝ → ℝ) (cinF : Vec ℝ → Vec ℝ) (p : XDeepFMParams ℝ)
    (rows : List (Vec ℝ)) : Except PyErr (List ℝ) :=
  exMapM
    (fun X => (xDeepFM.forwardLogit hid csz linM cinF p X).map (PredictionLayer.out t))
    rows

/-- FiBiNET.forward over a batch (fibinet.py lines 95-97); the embedding
lookup and dense-value extraction are collaborators `embF` and `denseF`. -/
noncomputable def FiBiNET.yPredBatch (t : Task) (nLinear nDnn : Nat)
    (se bil : Vec ℝ → Vec ℝ) (linM : Vec ℝ → ℝ) (embF denseF : Vec ℝ → Vec ℝ)
    (p : FiBiNETParams ℝ) (rows : List (Vec ℝ)) : Except PyErr (List ℝ) :=
  exMapM
    (fun X =>
      (FiBiNET.forwardLogit nLinear nDnn se bil linM p (embF X) X (denseF X)).map
        (PredictionLayer.out t))
    rows

lemma exceptMap_error {β γ : Type} (g : β → γ) (e : PyErr) :
    Except.map g (.error e : Except PyErr β) = .error e := rfl

lemma exceptMap_ok {β γ : Type} (g : β → γ) (b : β) :
    Except.map g (.ok b : Except PyErr β) = .ok (g b) := rfl

lemma sigmoid_nonneg (x : ℝ) : 0 ≤ sigmoid x := by
  unfold sigmoid
  positivity

lemma sigmoid_le_one (x : ℝ) : sigmoid x ≤ 1 := by
  unfold sigmoid
  rw [div_le_one (by positivity)]
  linarith [Real.exp_pos (-x)]

lemma out_binary_bounds (x : ℝ) :
    0 ≤ PredictionLayer.out .binary x ∧ PredictionLayer.out .binary x ≤ 1 :=
  ⟨sigmoid_nonneg x, sigmoid_le_one x⟩

lemma okBounded_exMapM (f : Vec ℝ → Except PyErr ℝ) :
    ∀ rows : List (Vec ℝ),
      OkBounded (exMapM (fun x => (f x).map (PredictionLayer.out .binary)) rows)
        rows.length
  | [] => by simp [exMapM, OkBounded]
  | r :: rs => by
    have ih := okBounded_exMapM f rs
    simp only [exMapM]
    cases h1 : f r with
    | error e => simp [exceptMap_error, OkBounded]
    | ok v =>
      simp only [exceptMap_ok]
      cases h2 : exMapM (fun x => Except.map (PredictionLayer.out Task.binary) (f x)) rs with
      | error e => simp [OkBounded]
      | ok ys =>
        rw [h2] at ih
        simp only [OkBounded] at ih ⊢
        refine ⟨by simp [ih.1], ?_⟩
        intro y hy
        rcases List.mem_cons.mp hy with hy' | hy'
        · subst hy'
          exact out_binary_bounds v
        · exact ih.2 y hy'

/-- C5: the final logit of each assembler is the sum (for DCN, the
concatenation projected through the final linear layer) of exactly the
active branch logits, passed through the task output transform: xDeepFM with nonempty
hidden units and CIN sizes yields `out(linear + dnn + cin)`, FiBiNET with
both feature-column lists nonempty yields `out(linear + dnn)`, and the DCN
Deep&Cross branch projects `cat(cross_out, deep_out)` through `dnn_linear`
before the transform. -/
theorem c5_theorem :
    (∀ (hid csz : List Nat), hid ≠ [] → csz ≠ [] →
      ∀ (t : Task) (linear_logit dnn_logit cin_logit : ℝ),
        (xDeepFM.finalLogit hid csz linear_logit dnn_logit cin_logit).map
            (PredictionLayer.out t) =
          .ok (PredictionLayer.out t (linear_logit + dnn_logit + cin_logit))) ∧
    (∀ (nLinear nDnn : Nat), 0 < nLinear → 0 < nDnn →
      ∀ (t : Task) (linear_logit dnn_logit : ℝ),
        (FiBiNET.finalLogit nLinear nDnn linear_logit dnn_logit).map
            (PredictionLayer.out t) =
          .ok (PredictionLayer.out t (linear_logit + dnn_logit))) ∧
    (∀ (hid : List Nat) (cross_num : Nat), hid ≠ [] → 0 < cross_num →
      ∀ (t : Task) (p : DCNParams ℝ) (x : Vec ℝ),
        (DCN.forwardLogit hid cross_num p x).map (PredictionLayer.out t) =
          .ok (PredictionLayer.out t
            (dot p.dnnLinearW (crossNet p.crossKernels x ++ dnnForward p.dnnLayers x)))) := by
  refine ⟨?_, ?_, ?_⟩
  · intro hid csz hhid hcsz t l d c
    have h1 : hid.length ≠ 0 := by simpa [List.length_eq_zero] using hhid
    have h2 : csz.length ≠ 0 := by simpa [List.length_eq_zero] using hcsz
    simp [xDeepFM.finalLogit, h1, h2, Nat.pos_of_ne_zero h1, Nat.pos_of_ne_zero h2,
      Except.map]
  · intro nL nD hL hD t l d
    simp [FiBiNET.finalLogit, hL, hD, Except.map]
  · intro hid cn hhid hcn t p x
    have h1 : hid.length ≠ 0 := by simpa [List.length_eq_zero] using hhid
    simp [DCN.forwardLogit, Nat.pos_of_ne_zero h1, hcn, Except.map]

/-- C5 witness at the default-style configurations. -/
theorem c5_witness :
    ([256, 256] : List Nat) ≠ [] ∧ ([128, 128] : List Nat) ≠ [] ∧ 0 < 3 ∧
    (xDeepFM.finalLogit [256, 256] [128, 128] (1 : ℝ) 2 3).map
        (PredictionLayer.out .binary) =
      .ok (PredictionLayer.out .binary ((1 : ℝ) + 2 + 3)) ∧
    (FiBiNET.finalLogit 3 3 (1 : ℝ) 2).map (PredictionLayer.out .binary) =
      .ok (PredictionLayer.out .binary ((1 : ℝ) + 2)) ∧
    (DCN.forwardLogit [128, 128] 2 (⟨[], [1], []⟩ : DCNParams ℝ) [1]).map
        (PredictionLayer.out .binary) =
      .ok (PredictionLayer.out .binary
        (dot (DCNParams.dnnLinearW (⟨[], [1], []⟩ : DCNParams ℝ))
          (crossNet (DCNParams.crossKernels (⟨[], [1], []⟩ : DCNParams ℝ)) [1] ++
            dnnForward (DCNParams.dnnLayers (⟨[], [1], []⟩ : DCNParams ℝ)) [1]))) :=
  ⟨by decide, by decide, by decide,
    c5_theorem.1 [256, 256] [128, 128] (by decide) (by decide) .binary 1 2 3,
    c5_theorem.2.1 3 3 (by decide) (by decide) .binary 1 2,
    c5_theorem.2.2 [128, 128] 2 (by decide) (by decide) .binary
      (⟨[], [1], []⟩ : DCNParams ℝ) [1]⟩

/-- C7: a forward call of any assembler leaves the parameter record
unchanged — the embedded forward threads the parameters explicitly and every
source statement only reads them, so the returned record equals the input
record whenever the call succeeds. -/
theorem c7_theorem :
    ∀ (hid csz : List Nat) (cross_num nLinear nDnn : Nat)
      (pd : DCNParams ℚ) (px : XDeepFMParams ℚ) (pf : FiBiNETParams ℚ)
      (linM : Vec ℚ → ℚ) (cinF se bil : Vec ℚ → Vec ℚ) (x emb dense : Vec ℚ),
      ParamsUnchanged (DCN.forwardSt hid cross_num pd x) pd ∧
      ParamsUnchanged (xDeepFM.forwardSt hid csz linM cinF px x) px ∧
      ParamsUnchanged (FiBiNET.forwardSt nLinear nDnn se bil linM pf emb x dense) pf := by
  intro hid csz cn nL nD pd px pf linM cinF se bil x emb dense
  refine ⟨?_, ?_, ?_⟩
  · cases h : DCN.forwardLogit hid cn pd x with
    | error e => simp [DCN.forwardSt, h, ParamsUnchanged]
    | ok y => simp [DCN.forwardSt, h, ParamsUnchanged]
  · cases h : xDeepFM.forwardLogit hid csz linM cinF px x with
    | error e => simp [xDeepFM.forwardSt, h, ParamsUnchanged]
    | ok y => simp [xDeepFM.forwardSt, h, ParamsUnchanged]
  · cases h : FiBiNET.forwardLogit nL nD se bil linM pf emb x dense with
    | error e => simp [FiBiNET.forwardSt, h, ParamsUnchanged]
    | ok y => simp [FiBiNET.forwardSt, h, ParamsUnchanged]

/-- C9: for every assembler under the binary task, a successful forward call
yields exactly one scalar per input row and every output value lies in
[0, 1], the final logit having passed through the sigmoid transform. -/
theorem c9_theorem :
    ∀ (hid csz : List Nat) (cross_num nLinear nDnn : Nat)
      (pd : DCNParams ℝ) (px : XDeepFMParams ℝ) (pf : FiBiNETParams ℝ)
      (linM : Vec ℝ → ℝ) (cinF se bil embF denseF : Vec ℝ → Vec ℝ)
      (rows : List (Vec ℝ)),
      OkBounded (DCN.yPredBatch .binary hid cross_num pd rows) rows.length ∧
      OkBounded (xDeepFM.yPredBatch .binary hid csz linM cinF px rows) rows.length ∧
      OkBounded
        (FiBiNET.yPredBatch .binary nLinear nDnn se bil linM embF denseF pf rows)
        rows.length := by
  intro hid csz cn nL nD pd px pf linM cinF se bil embF denseF rows
  exact ⟨okBounded_exMapM (fun x => DCN.forwardLogit hid cn pd x) rows,
    okBounded_exMapM (fun X => xDeepFM.forwardLogit hid csz linM cinF px X) rows,
    okBounded_exMapM
      (fun X => FiBiNET.forwardLogit nL nD se bil linM pf (embF X) X (denseF X)) rows⟩

lemma zipWith_getD (f : ℚ → ℚ → ℚ) :
    ∀ (l1 l2 : List ℚ) (i : Nat), i < l1.length → i < l2.length →
      (List.zipWith f l1 l2).getD i 0 = f (l1.getD i 0) (l2.getD i 0)
  | [], _, i, h1, _ => absurd h1 (by simp)
  | _ :: _, [], i, _, h2 => absurd h2 (by simp)
  | a :: l1, b :: l2, 0, _, _ => by simp
  | a :: l1, b :: l2, i + 1, h1, h2 => by
    simp only [List.zipWith_cons_cons, List.getD_cons_succ]
    exact zipWith_getD f l1 l2 i (by simpa using h1) (by simpa using h2)

lemma map_getD (g : ℚ → ℚ) :
    ∀ (l : List ℚ) (i : Nat), i < l.length → (l.map g).getD i 0 = g (l.getD i 0)
  | [], i, h => absurd h (by simp)
  | a :: l, 0, _ => by simp
  | a :: l, i + 1, h => by
    simp only [List.map_cons, List.getD_cons_succ]
    exact map_getD g l i (by simpa using h)

lemma vadd_length (a b : Vec ℚ) : (vadd a b).length = min a.length b.length := by
  simp [vadd]

lemma smul_length (c : ℚ) (x : Vec ℚ) : (smul c x).length = x.length := by
  simp [smul]

lemma crossLayer_length (x0 w b xp : Vec ℚ) (hb : b.length = x0.length)
    (hx : xp.length = x0.length) : (crossLayer x0 w b xp).length = x0.length := by
  simp [crossLayer, vadd_length, smul_length, hb, hx]

/-- C6: CrossNet with a single layer computes
`x0 * (w1 . x0) + b1 + x0` coordinate-wise, and in general appending a layer
`(w, b)` post-composes exactly one step `x_l = x0 * (w . x_prev) + b + x_prev`
of the layer recurrence. -/
theorem c6_theorem :
    ∀ (x0 w b : Vec ℚ), w.length = x0.length → b.length = x0.length →
      ((crossNet [(w, b)] x0).length = x0.length ∧
       ∀ i : Nat, i < x0.length →
         (crossNet [(w, b)] x0).getD i 0 =
           x0.getD i 0 * dot w x0 + b.getD i 0 + x0.getD i 0) ∧
      ∀ (ks : List (Vec ℚ × Vec ℚ)) (w2 b2 : Vec ℚ),
        crossNet (ks ++ [(w2, b2)]) x0 = crossLayer x0 w2 b2 (crossNet ks x0) := by
  intro x0 w b _ hb
  have hone : crossNet [(w, b)] x0 = crossLayer x0 w b x0 := rfl
  refine ⟨⟨by rw [hone]; exact crossLayer_length x0 w b x0 hb rfl, ?_⟩, ?_⟩
  · intro i hi
    rw [hone]
    have hsl : (smul (dot w x0) x0).length = x0.length := smul_length _ _
    have hinner : (vadd (smul (dot w x0) x0) b).length = x0.length := by
      rw [vadd_length, hsl, hb]
      exact min_self _
    have h1 : (crossLayer x0 w b x0).getD i 0 =
        (vadd (smul (dot w x0) x0) b).getD i 0 + x0.getD i 0 := by
      unfold crossLayer
      exact zipWith_getD _ _ _ i (by rw [hinner]; exact hi) hi
    have h2 : (vadd (smul (dot w x0) x0) b).getD i 0 =
        (smul (dot w x0) x0).getD i 0 + b.getD i 0 := by
      unfold vadd
      exact zipWith_getD _ _ _ i (by rw [hsl]; exact hi) (by rw [hb]; exact hi)
    have h3 : (smul (dot w x0) x0).getD i 0 = dot w x0 * x0.getD i 0 := by
      unfold smul
      exact map_getD _ _ i hi
    rw [h1, h2, h3]
    ring
  · intro ks w2 b2
    simp [crossNet, List.foldl_append]

/-- C6 witness at D = 3: `x0 = (1, 0, 2)`, `w1 = (1, 2, 3)`, `b1 = (1, 1, 1)`. -/
theorem c6_witness :
    ([1, 2, 3] : Vec ℚ).length = ([1, 0, 2] : Vec ℚ).length ∧
    ([1, 1, 1] : Vec ℚ).length = ([1, 0, 2] : Vec ℚ).length ∧
    0 < ([1, 0, 2] : Vec ℚ).length ∧
    (crossNet [(([1, 2, 3] : Vec ℚ), ([1, 1, 1] : Vec ℚ))] [1, 0, 2]).getD 0 0 =
      ([1, 0, 2] : Vec ℚ).getD 0 0 * dot [1, 2, 3] [1, 0, 2] +
        ([1, 1, 1] : Vec ℚ).getD 0 0 + ([1, 0, 2] : Vec ℚ).getD 0 0 :=
  ⟨by decide, by decide, by decide,
    (c6_theorem [1, 0, 2] [1, 2, 3] [1, 1, 1] (by decide) (by decide)).1.2 0 (by decide)⟩

/-- The three weight-sharing policies of BilinearInteraction. -/
inductive BilinearType
  | all
  | each
  | interaction
deriving DecidableEq, Repr

/-- All unordered pairs of elements of a list, in the order of
`itertools.combinations(l, 2)`. -/
def combPairs {β : Type} : List β → List (β × β)
  | [] => []
  | x :: xs => xs.map (fun y => (x, y)) ++ combPairs xs

/-- Modelled from the spec: the learnable weights of BilinearInteraction —
one shared matrix for the `all` policy, one matrix per field for `each`
(applied to the left operand of every pair that field opens), and one matrix
per unordered pair for `interaction`, stored in combination order. -/
structure BilinearWeights (α : Type) where
  wAll : Mat α
  wEach : List (Mat α)
  wPair : List (Mat α)
deriving DecidableEq

section Bilinear

variable {α : Type} [LinearOrderedField α]

/-- One bilinear pair product `(v_i W) ⊙ v_j`. -/
def interact (w : Mat α) (vi vj : Vec α) : Vec α := hadamard (matVec w vi) vj

/-- Modelled from the spec: the BilinearInteraction layer (imported by
`fibinet.py` but not under the assembler sources) — for every unordered
field pair `i < j`, the product `(v_i W) ⊙ v_j` with `W` chosen per the
sharing policy; the outputs are concatenated along the feature axis. -/
def bilinForward (t : BilinearType) (w : BilinearWeights α)
    (fields : List (Vec α)) : Vec α :=
  match t with
  | .all => (combPairs fields).flatMap (fun p => interact w.wAll p.1 p.2)
  | .each =>
    (combPairs (fields.zip w.wEach)).flatMap
      (fun p => interact p.1.2 p.1.1 p.2.1)
  | .interaction =>
    ((combPairs fields).zip w.wPair).flatMap
      (fun q => interact q.2 q.1.1 q.1.2)

end Bilinear

/-- Feature-column metadata: a sparse (embedded) column or a dense numeric
column of a given dimension. -/
inductive Feat
  | sparseFeat (vocabulary : Nat)
  | denseFeat (dimension : Nat)
deriving DecidableEq, Repr

/-- Tests isinstance(x, SparseFeat). -/
def Feat.isSparse : Feat → Bool
  | .sparseFeat _ => true
  | .denseFeat _ => false

/-- Tests isinstance(x, DenseFeat). -/
def Feat.isDense : Feat → Bool
  | .sparseFeat _ => false
  | .denseFeat _ => true

/-- The `dimension` attribute read by `compute_input_dim` (only ever read on
dense columns). -/
def Feat.dimension : Feat → Nat
  | .sparseFeat v => v
  | .denseFeat d => d

/-- FiBiNET.compute_input_dim (fibinet.py lines 60-69): with `dense_only`
unset, `field_size * (field_size - 1) * embedding_size` plus the sum of the
dense-column dimensions, where `field_size` counts the sparse columns. -/
def FiBiNET.compute_input_dim (feature_columns : List Feat)
    (embedding_size : Nat) (dense_only : Bool) : Nat :=
  let sparse_feature_columns := feature_columns.filter Feat.isSparse
  let dense_feature_columns := feature_columns.filter Feat.isDense
  let field_size := sparse_feature_columns.length
  if dense_only then
    (dense_feature_columns.map Feat.dimension).sum
  else
    field_size * (field_size - 1) * embedding_size +
      (dense_feature_columns.map Feat.dimension).sum

lemma flatMap_length_const {β γ : Type} (E : Nat) :
    ∀ (L : List β) (f : β → List γ), (∀ a ∈ L, (f a).length = E) →
      (L.flatMap f).length = L.length * E
  | [], _, _ => by simp
  | a :: L, f, h => by
    rw [List.flatMap_cons, List.length_append,
      flatMap_length_const E L f (fun b hb => h b (List.mem_cons_of_mem a hb)),
      h a (List.mem_cons_self a L), List.length_cons, Nat.succ_mul, Nat.add_comm]

lemma combPairs_length {β : Type} :
    ∀ l : List β, (combPairs l).length = l.length.choose 2
  | [] => by simp [combPairs]
  | x :: xs => by
    rw [combPairs, List.length_append, List.length_map, combPairs_length xs,
      List.length_cons, Nat.choose_succ_succ, Nat.choose_one_right]

lemma mem_combPairs {β : Type} :
    ∀ {l : List β} {p : β × β}, p ∈ combPairs l → p.1 ∈ l ∧ p.2 ∈ l := by
  intro l
  induction l with
  | nil => intro p hp; cases hp
  | cons x xs ih =>
    intro p hp
    rcases List.mem_append.mp hp with hp' | hp'
    · rcases List.mem_map.mp hp' with ⟨y, hy, hyp⟩
      subst hyp
      exact ⟨List.mem_cons_self x xs, List.mem_cons_of_mem x hy⟩
    · exact ⟨List.mem_cons_of_mem x (ih hp').1, List.mem_cons_of_mem x (ih hp').2⟩

lemma interact_length (w : Mat ℚ) (vi vj : Vec ℚ) :
    (interact w vi vj).length = min w.length vj.length := by
  simp [interact, hadamard, matVec]

lemma bilinForward_length (F E : Nat) (t : BilinearType) (w : BilinearWeights ℚ)
    (fields : List (Vec ℚ)) (hF : fields.length = F)
    (hE : ∀ v ∈ fields, v.length = E) (hA : w.wAll.length = E)
    (hEa : w.wEach.length = F) (hEaE : ∀ m ∈ w.wEach, m.length = E)
    (hP : w.wPair.length = F * (F - 1) / 2) (hPE : ∀ m ∈ w.wPair, m.length = E) :
    (bilinForward t w fields).length = F * (F - 1) / 2 * E := by
  have hch : (combPairs fields).length = F * (F - 1) / 2 := by
    rw [combPairs_length, hF, Nat.choose_two_right]
  cases t with
  | all =>
    rw [bilinForward, flatMap_length_const E _ _ ?_, hch]
    intro p hp
    rw [interact_length, hA, hE p.2 (mem_combPairs hp).2]
    exact min_self E
  | each =>
    rw [bilinForward, flatMap_length_const E _ _ ?_, combPairs_length,
      List.length_zip, hF, hEa, min_self, Nat.choose_two_right]
    intro p hp
    have h1 := List.of_mem_zip (mem_combPairs hp).1
    have h2 := List.of_mem_zip (mem_combPairs hp).2
    rw [interact_length, hEaE p.1.2 h1.2, hE p.2.1 h2.1]
    exact min_self E
  | interaction =>
    rw [bilinForward, flatMap_length_const E _ _ ?_, List.length_zip, hch, hP,
      min_self]
    intro q hq
    have h1 := List.of_mem_zip hq
    rw [interact_length, hPE q.2 h1.2, hE q.1.2 (mem_combPairs h1.1).2]
    exact min_self E

/-- C4: for `F ≥ 2` fields of embedding dimension `E`, the
BilinearInteraction output width is `F*(F-1)/2 * E` under each of the three
sharing policies, and the FiBiNET DNN input — two bilinear outputs
concatenated with the dense values — has exactly the width
`compute_input_dim` reports, namely `F*(F-1)*E` plus the sum of the
dense-column dimensions. -/
theorem c4_theorem :
    ∀ (F E : Nat) (t : BilinearType) (w : BilinearWeights ℚ)
      (fields1 fields2 : List (Vec ℚ)),
      2 ≤ F →
      fields1.length = F → (∀ v ∈ fields1, v.length = E) →
      fields2.length = F → (∀ v ∈ fields2, v.length = E) →
      w.wAll.length = E →
      w.wEach.length = F → (∀ m ∈ w.wEach, m.length = E) →
      w.wPair.length = F * (F - 1) / 2 → (∀ m ∈ w.wPair, m.length = E) →
      ∀ (cols : List Feat) (dense : Vec ℚ),
        (cols.filter Feat.isSparse).length = F →
        dense.length = ((cols.filter Feat.isDense).map Feat.dimension).sum →
        (bilinForward t w fields1).length = F * (F - 1) / 2 * E ∧
        ((bilinForward t w fields1 ++ bilinForward t w fields2) ++ dense).length =
          FiBiNET.compute_input_dim cols E false := by
  intro F E t w fields1 fields2 _ hF1 hE1 hF2 hE2 hA hEa hEaE hP hPE cols dense
    hsp hdense
  have hw1 := bilinForward_length F E t w fields1 hF1 hE1 hA hEa hEaE hP hPE
  have hw2 := bilinForward_length F E t w fields2 hF2 hE2 hA hEa hEaE hP hPE
  refine ⟨hw1, ?_⟩
  have heven : 2 ∣ F * (F - 1) := by
    rcases Nat.even_or_odd F with h | h
    · exact Dvd.dvd.mul_right h.two_dvd _
    · have h2 : Even (F - 1) := Nat.Odd.sub_odd h odd_one
      exact Dvd.dvd.mul_left h2.two_dvd _
  have hhalf : F * (F - 1) / 2 * 2 = F * (F - 1) := Nat.div_mul_cancel heven
  rw [List.length_append, List.length_append, hw1, hw2, hdense,
    FiBiNET.compute_input_dim]
  simp only [hsp, Bool.false_eq_true, if_false]
  have : F * (F - 1) / 2 * E + F * (F - 1) / 2 * E = F * (F - 1) / 2 * 2 * E := by
    ring
  rw [this, hhalf]

/-- C4 witness at `F = 3`, `E = 2`, the pair-specific policy, identity-style
weights and a one-dimensional dense column. -/
theorem c4_witness :
    2 ≤ 3 ∧
    (bilinForward .interaction
        (⟨[[1, 0], [0, 1]],
          [[[1, 0], [0, 1]], [[1, 0], [0, 1]], [[1, 0], [0, 1]]],
          [[[1, 0], [0, 1]], [[1, 0], [0, 1]], [[1, 0], [0, 1]]]⟩ : BilinearWeights ℚ)
        [[1, 2], [3, 4], [5, 6]]).length = 3 * (3 - 1) / 2 * 2 ∧
    ((bilinForward .interaction
        (⟨[[1, 0], [0, 1]],
          [[[1, 0], [0, 1]], [[1, 0], [0, 1]], [[1, 0], [0, 1]]],
          [[[1, 0], [0, 1]], [[1, 0], [0, 1]], [[1, 0], [0, 1]]]⟩ : BilinearWeights ℚ)
        [[1, 2], [3, 4], [5, 6]] ++
      bilinForward .interaction
        (⟨[[1, 0], [0, 1]],
          [[[1, 0], [0, 1]], [[1, 0], [0, 1]], [[1, 0], [0, 1]]],
          [[[1, 0], [0, 1]], [[1, 0], [0, 1]], [[1, 0], [0, 1]]]⟩ : BilinearWeights ℚ)
        [[1, 1], [2, 2], [3, 3]]) ++ [7]).length =
      FiBiNET.compute_input_dim
        [.sparseFeat 5, .sparseFeat 5, .sparseFeat 5, .denseFeat 1] 2 false :=
  ⟨by decide,
    c4_theorem 3 2 .interaction
      (⟨[[1, 0], [0, 1]],
        [[[1, 0], [0, 1]], [[1, 0], [0, 1]], [[1, 0], [0, 1]]],
        [[[1, 0], [0, 1]], [[1, 0], [0, 1]], [[1, 0], [0, 1]]]⟩ : BilinearWeights ℚ)
      [[1, 2], [3, 4], [5, 6]] [[1, 1], [2, 2], [3, 3]]
      (by decide) (by decide) (by decide) (by decide) (by decide) (by decide)
      (by decide) (by decide) (by decide) (by decide)
      [.sparseFeat 5, .sparseFeat 5, .sparseFeat 5, .denseFeat 1] [7]
      (by decide) (by decide)⟩

end DeepCTR
